import Mathlib

set_option maxHeartbeats 1000000

/-!
Shallow embedding of the core logic of `src/app.py` (a meeting-planner /
public-holiday dashboard).

Two pieces of the program carry the algorithmic content:

* `find_suitable_meeting_times timezones date` (app.py lines 43-62): for each
  hour 0..23 and minute in {0, 30} it builds the UTC instant `date@h:m`,
  converts it to local time in every requested zone via the timezone database
  (`pytz`), and keeps the slot iff no zone's local hour satisfies
  `hour < 8 or hour > 18`.  The timezone database is an external collaborator,
  so it is a parameter here (`TzDB`): a partial map from zone identifiers to
  conversion functions; an unresolvable identifier makes the call fail (pytz
  raises `UnknownTimeZoneError`), modelled with `Except`.  The Python code
  renders each accepted slot as the pair
  `(utc.strftime("%H:%M UTC"), [f"{tz.split('/')[-1]}: {local.strftime('%H:%M')}" ...])`;
  the embedding keeps the underlying data (the UTC instant and, per requested
  zone in order, the zone identifier with its converted local datetime) rather
  than the formatted strings.

* `get_month_matrix year month` (app.py lines 169-171):
  `list(calendar.Calendar(firstweekday=0).itermonthdates(year, month))`.
  CPython's `calendar` module generates, for a Monday-first calendar, the dates
  from the Monday on or before the 1st of the month to the Sunday on or after
  its last day.  Its algorithm (`itermonthdays3`) is embedded below together
  with the proleptic-Gregorian date arithmetic of `datetime.date`
  (`toordinal` / `weekday`).

The calendar-heatmap classification loop (app.py lines 188-197) colours each
grid date: grey (padding) when its month differs from the selected month,
otherwise red (holiday) when it belongs to the holiday-date set and green
(free) otherwise; it is embedded as `classifyDay`.
-/

/-- A calendar date as used by `datetime.date`: year, month (1-12), day. -/
structure Date where
  year : Nat
  month : Nat
  day : Nat
  deriving DecidableEq, Repr

/-- A date with a wall-clock time, as used by `datetime.datetime` (the program
only ever reads year/month/day/hour/minute). -/
structure DateTime where
  date : Date
  hour : Nat
  minute : Nat
  deriving DecidableEq, Repr

/-- `calendar.isleap` / `datetime`'s leap-year rule. -/
def isleap (y : Nat) : Bool :=
  y % 4 == 0 && (y % 100 != 0 || y % 400 == 0)

/-- Length of month `m` of year `y`: `calendar.mdays[m] + (m == 2 and isleap(y))`.
(Python raises for `m` outside 1..12; the theorems below only use 1..12.) -/
def monthLen (y m : Nat) : Nat :=
  if m = 2 then (if isleap y then 29 else 28)
  else if m = 4 ∨ m = 6 ∨ m = 9 ∨ m = 11 then 30
  else 31

/-- Days in a common year strictly before month `m` (`datetime`'s
`_DAYS_BEFORE_MONTH` table). -/
def daysBeforeMonthCommon : Nat → Nat
  | 1 => 0
  | 2 => 31
  | 3 => 59
  | 4 => 90
  | 5 => 120
  | 6 => 151
  | 7 => 181
  | 8 => 212
  | 9 => 243
  | 10 => 273
  | 11 => 304
  | 12 => 334
  | _ => 0

/-- Days in year `y` strictly before month `m` (`datetime._days_before_month`). -/
def daysBeforeMonth (y m : Nat) : Nat :=
  daysBeforeMonthCommon m + (if 2 < m ∧ isleap y then 1 else 0)

/-- Days strictly before January 1 of year `y` in the proleptic Gregorian
calendar (`datetime._days_before_year`). -/
def daysBeforeYear (y : Nat) : Nat :=
  365 * (y - 1) + (y - 1) / 4 - (y - 1) / 100 + (y - 1) / 400

/-- `datetime.date.toordinal`: day number with 0001-01-01 as day 1. -/
def toOrdinal (d : Date) : Nat :=
  daysBeforeYear d.year + daysBeforeMonth d.year d.month + d.day

/-- `datetime.date.weekday`: Monday = 0 .. Sunday = 6 (0001-01-01 is a Monday). -/
def pyWeekday (d : Date) : Nat :=
  (toOrdinal d + 6) % 7

/-- `calendar._prevmonth`. -/
def prevmonth (y m : Nat) : Nat × Nat :=
  if m = 1 then (y - 1, 12) else (y, m - 1)

/-- `calendar._nextmonth`. -/
def nextmonth (y m : Nat) : Nat × Nat :=
  if m = 12 then (y + 1, 1) else (y, m + 1)

/-- `calendar.monthrange`: weekday of the 1st of the month and month length. -/
def monthrange (y m : Nat) : Nat × Nat :=
  (pyWeekday ⟨y, m, 1⟩, monthLen y m)

/-- Number of leading padding days in the grid:
`days_before = (day1 - firstweekday) % 7` with `firstweekday = 0`. -/
def daysBefore (y m : Nat) : Nat :=
  (monthrange y m).1 % 7

/-- Number of trailing padding days in the grid:
`days_after = (firstweekday - day1 - ndays) % 7` with `firstweekday = 0`
(Python's modulo of a negative number yields a value in 0..6). -/
def daysAfter (y m : Nat) : Nat :=
  (7 - ((monthrange y m).1 + (monthrange y m).2) % 7) % 7

/-- `get_month_matrix(year, month)` from app.py lines 169-171:
`list(calendar.Calendar(firstweekday=0).itermonthdates(year, month))`.
Following CPython's `Calendar.itermonthdays3`, the grid is: the last
`days_before` days of the previous month (`range(end - days_before, end)` with
`end = prevlen + 1`), then days `1..ndays` of the requested month
(`range(1, ndays + 1)`), then days `1..days_after` of the next month
(`range(1, days_after + 1)`). -/
def get_month_matrix (year month : Nat) : List Date :=
  ((List.range' (monthLen (prevmonth year month).1 (prevmonth year month).2 + 1
        - daysBefore year month) (daysBefore year month)).map
      (fun d => (⟨(prevmonth year month).1, (prevmonth year month).2, d⟩ : Date)))
    ++ ((List.range' 1 (monthrange year month).2).map
      (fun d => (⟨year, month, d⟩ : Date)))
    ++ ((List.range' 1 (daysAfter year month)).map
      (fun d => (⟨(nextmonth year month).1, (nextmonth year month).2, d⟩ : Date)))

/-- Classification tag of one grid cell in the calendar heatmap
(app.py lines 188-197): grey padding cell, red holiday cell, green free cell. -/
inductive DayTag where
  | padding : DayTag
  | holiday : DayTag
  | free : DayTag
  deriving DecidableEq, Repr

/-- Body of the heatmap loop (app.py lines 188-194): a grid date whose month is
not the selected month is a grey padding cell (`color_val = -1`); otherwise it
is red (`color_val = 0`) when the date is in `holiday_dates` and green
(`color_val = 1`) when it is not. -/
def classifyDay (d : Date) (month : Nat) (holidaySet : List Date) : DayTag :=
  if d.month = month then
    (if d ∈ holidaySet then DayTag.holiday else DayTag.free)
  else DayTag.padding

/-- The timezone database collaborator (`pytz`): maps a zone identifier to the
conversion `utc_time.astimezone(pytz.timezone(tz))` for that zone, or to
nothing when the identifier does not resolve (pytz raises
`UnknownTimeZoneError`). -/
abbrev TzDB : Type := String → Option (DateTime → DateTime)

/-- One accepted entry of `suitable_times`: the UTC instant of the slot
together with, per requested zone in input order, the zone identifier and its
converted local datetime (which the Python code renders as
`"last-path-component: HH:MM"`). -/
structure Candidate where
  utc : DateTime
  localTimes : List (String × DateTime)
  deriving DecidableEq, Repr

/-- The out-of-bounds test of app.py line 55:
`local_time.hour < 8 or local_time.hour > 18`. -/
def hourOutOfBounds (t : DateTime) : Bool :=
  decide (t.hour < 8) || decide (t.hour > 18)

/-- The inner loop of app.py lines 53-57: resolve and apply each requested
zone in order, failing with the first identifier the timezone database cannot
resolve. -/
def convertAll (db : TzDB) (timezones : List String) (utc : DateTime) :
    Except String (List (String × DateTime)) :=
  match timezones with
  | [] => Except.ok []
  | tz :: rest =>
    match db tz with
    | none => Except.error tz
    | some f =>
      match convertAll db rest utc with
      | Except.error e => Except.error e
      | Except.ok l => Except.ok ((tz, f utc) :: l)

/-- The candidate grid of app.py lines 47-48: hours 0..23, minutes {0, 30},
in enumeration order. -/
def halfHourSlots : List (Nat × Nat) :=
  (List.range 24).flatMap (fun h => [(h, 0), (h, 30)])

/-- The sweep of app.py lines 47-60 over a list of (hour, minute) slots: for
each slot build the UTC instant, convert it in every zone, and append the
candidate to the result exactly when no zone's local hour is out of bounds
(`all_in_bounds` stays `True`). -/
def sweep (db : TzDB) (timezones : List String) (date : Date) :
    List (Nat × Nat) → Except String (List Candidate)
  | [] => Except.ok []
  | s :: rest =>
    match convertAll db timezones ⟨date, s.1, s.2⟩ with
    | Except.error e => Except.error e
    | Except.ok locals =>
      match sweep db timezones date rest with
      | Except.error e => Except.error e
      | Except.ok cs =>
        Except.ok
          (if locals.all (fun p => !(hourOutOfBounds p.2)) then
            ⟨⟨date, s.1, s.2⟩, locals⟩ :: cs
          else cs)

/-- `find_suitable_meeting_times(timezones, date)` (app.py lines 43-62). -/
def find_suitable_meeting_times (db : TzDB) (timezones : List String)
    (date : Date) : Except String (List Candidate) :=
  sweep db timezones date halfHourSlots

/-! Arithmetic facts about the embedded `datetime` / `calendar` helpers. -/

lemma isleap_eq_true_iff (y : Nat) :
    isleap y = true ↔ (y % 4 = 0 ∧ (y % 100 ≠ 0 ∨ y % 400 = 0)) := by
  simp [isleap]

lemma monthLen_ge (y m : Nat) : 28 ≤ monthLen y m := by
  unfold monthLen
  split_ifs <;> omega

lemma monthLen_le (y m : Nat) : monthLen y m ≤ 31 := by
  unfold monthLen
  split_ifs <;> omega

lemma daysBeforeYear_succ (y : Nat) (hy : 1 ≤ y) :
    daysBeforeYear (y + 1) = daysBeforeYear y + 365 + (if isleap y then 1 else 0) := by
  obtain ⟨z, rfl⟩ : ∃ z, y = z + 1 := ⟨y - 1, by omega⟩
  have hleap : (if isleap (z + 1) then (1 : Nat) else 0)
      = (if ((z + 1) % 4 = 0 ∧ ((z + 1) % 100 ≠ 0 ∨ (z + 1) % 400 = 0)) then 1 else 0) := by
    simp only [isleap_eq_true_iff]
  rw [hleap]
  simp only [daysBeforeYear, Nat.add_sub_cancel]
  split_ifs with h <;> omega

lemma daysBeforeMonth_succ (y m : Nat) (h1 : 1 ≤ m) (h2 : m ≤ 11) :
    daysBeforeMonth y m + monthLen y m = daysBeforeMonth y (m + 1) := by
  interval_cases m <;> rcases hb : isleap y <;>
    simp [daysBeforeMonth, monthLen, daysBeforeMonthCommon, hb]

lemma daysBeforeMonth_one (y : Nat) : daysBeforeMonth y 1 = 0 := by
  simp [daysBeforeMonth, daysBeforeMonthCommon]

lemma daysBeforeMonth_twelve (y : Nat) :
    daysBeforeMonth y 12 = 334 + (if isleap y then 1 else 0) := by
  simp [daysBeforeMonth, daysBeforeMonthCommon]

lemma toOrdinal_prevmonth (y m : Nat) (h1 : 1 ≤ m) (h2 : m ≤ 12) (h3 : 2 ≤ y ∨ 2 ≤ m) :
    toOrdinal ⟨(prevmonth y m).1, (prevmonth y m).2,
        monthLen (prevmonth y m).1 (prevmonth y m).2⟩ + 1 = toOrdinal ⟨y, m, 1⟩ := by
  by_cases hm : m = 1
  · subst hm
    have hy : 2 ≤ y := by omega
    have hs := daysBeforeYear_succ (y - 1) (by omega)
    rw [show y - 1 + 1 = y from by omega] at hs
    have hml : monthLen (y - 1) 12 = 31 := rfl
    show toOrdinal ⟨y - 1, 12, monthLen (y - 1) 12⟩ + 1 = toOrdinal ⟨y, 1, 1⟩
    simp only [toOrdinal, daysBeforeMonth_one, daysBeforeMonth_twelve, hml]
    omega
  · simp only [prevmonth, if_neg hm]
    have hb := daysBeforeMonth_succ y (m - 1) (by omega) (by omega)
    rw [show m - 1 + 1 = m from by omega] at hb
    simp only [toOrdinal]
    omega

lemma toOrdinal_nextmonth (y m : Nat) (hy : 1 ≤ y) (h1 : 1 ≤ m) (h2 : m ≤ 12) :
    toOrdinal ⟨y, m, monthLen y m⟩ + 1
      = toOrdinal ⟨(nextmonth y m).1, (nextmonth y m).2, 1⟩ := by
  by_cases hm : m = 12
  · subst hm
    have hs := daysBeforeYear_succ y hy
    have hml : monthLen y 12 = 31 := rfl
    show toOrdinal ⟨y, 12, monthLen y 12⟩ + 1 = toOrdinal ⟨y + 1, 1, 1⟩
    simp only [toOrdinal, daysBeforeMonth_one, daysBeforeMonth_twelve, hml]
    omega
  · simp only [nextmonth, if_neg hm]
    have hb := daysBeforeMonth_succ y m h1 (by omega)
    simp only [toOrdinal]
    omega

lemma pyWeekday_lt (d : Date) : pyWeekday d < 7 :=
  Nat.mod_lt _ (by omega)

lemma get_month_matrix_eq (y m : Nat) :
    get_month_matrix y m =
      ((List.range' (monthLen (prevmonth y m).1 (prevmonth y m).2 + 1
            - pyWeekday ⟨y, m, 1⟩) (pyWeekday ⟨y, m, 1⟩)).map
          (fun d => (⟨(prevmonth y m).1, (prevmonth y m).2, d⟩ : Date)))
        ++ ((List.range' 1 (monthLen y m)).map (fun d => (⟨y, m, d⟩ : Date)))
        ++ ((List.range' 1 ((7 - (pyWeekday ⟨y, m, 1⟩ + monthLen y m) % 7) % 7)).map
          (fun d => (⟨(nextmonth y m).1, (nextmonth y m).2, d⟩ : Date))) := by
  have h7 : pyWeekday ⟨y, m, 1⟩ % 7 = pyWeekday ⟨y, m, 1⟩ :=
    Nat.mod_eq_of_lt (pyWeekday_lt _)
  simp only [get_month_matrix, daysBefore, daysAfter, monthrange, h7]

lemma grid_block_ordinals (Y M a n : Nat) :
    (((List.range' a n).map (fun d => (⟨Y, M, d⟩ : Date))).map toOrdinal)
      = List.range' (daysBeforeYear Y + daysBeforeMonth Y M + a) n := by
  rw [List.map_map]
  have he : (toOrdinal ∘ fun d => (⟨Y, M, d⟩ : Date))
      = fun d => (daysBeforeYear Y + daysBeforeMonth Y M) + d := rfl
  rw [he, List.map_add_range']

lemma grid_length (y m : Nat) :
    (get_month_matrix y m).length
      = pyWeekday ⟨y, m, 1⟩ + monthLen y m
        + (7 - (pyWeekday ⟨y, m, 1⟩ + monthLen y m) % 7) % 7 := by
  rw [get_month_matrix_eq]
  simp [Nat.add_assoc]

lemma grid_map_toOrdinal (y m : Nat) (hy : 1 ≤ y) (h1 : 1 ≤ m) (h2 : m ≤ 12) :
    (get_month_matrix y m).map toOrdinal
      = List.range' (toOrdinal ⟨y, m, 1⟩ - pyWeekday ⟨y, m, 1⟩)
          (pyWeekday ⟨y, m, 1⟩ + monthLen y m
            + (7 - (pyWeekday ⟨y, m, 1⟩ + monthLen y m) % 7) % 7) := by
  have hQ : toOrdinal ⟨y, m, 1⟩ = daysBeforeYear y + daysBeforeMonth y m + 1 := rfl
  have hw : pyWeekday ⟨y, m, 1⟩ = (toOrdinal ⟨y, m, 1⟩ + 6) % 7 := rfl
  have hw7 : pyWeekday ⟨y, m, 1⟩ < 7 := pyWeekday_lt _
  have hcur : toOrdinal ⟨y, m, monthLen y m⟩
      = daysBeforeYear y + daysBeforeMonth y m + monthLen y m := rfl
  have hnext2 : daysBeforeYear (nextmonth y m).1
        + daysBeforeMonth (nextmonth y m).1 (nextmonth y m).2 + 1
      = toOrdinal ⟨y, m, monthLen y m⟩ + 1 :=
    (toOrdinal_nextmonth y m hy h1 h2).symm
  rw [get_month_matrix_eq y m, List.map_append, List.map_append,
      grid_block_ordinals, grid_block_ordinals, grid_block_ordinals]
  rw [show daysBeforeYear y + daysBeforeMonth y m + 1 = toOrdinal ⟨y, m, 1⟩ from rfl]
  rw [show daysBeforeYear (nextmonth y m).1
        + daysBeforeMonth (nextmonth y m).1 (nextmonth y m).2 + 1
      = toOrdinal ⟨y, m, 1⟩ + monthLen y m from by omega]
  by_cases hw0 : pyWeekday ⟨y, m, 1⟩ = 0
  · rw [hw0]
    simp only [List.range'_zero, List.nil_append, Nat.sub_zero, Nat.zero_add]
    rw [List.range'_append_1]
    congr 1
    omega
  · have h3 : 2 ≤ y ∨ 2 ≤ m := by
      by_contra hc
      push_neg at hc
      have hy1 : y = 1 := by omega
      have hm1 : m = 1 := by omega
      subst hy1; subst hm1
      exact hw0 (by decide)
    have hprev2 : daysBeforeYear (prevmonth y m).1
          + daysBeforeMonth (prevmonth y m).1 (prevmonth y m).2
          + monthLen (prevmonth y m).1 (prevmonth y m).2 + 1
        = toOrdinal ⟨y, m, 1⟩ :=
      toOrdinal_prevmonth y m h1 h2 h3
    have hplen := monthLen_ge (prevmonth y m).1 (prevmonth y m).2
    rw [show daysBeforeYear (prevmonth y m).1
          + daysBeforeMonth (prevmonth y m).1 (prevmonth y m).2
          + (monthLen (prevmonth y m).1 (prevmonth y m).2 + 1 - pyWeekday ⟨y, m, 1⟩)
        = toOrdinal ⟨y, m, 1⟩ - pyWeekday ⟨y, m, 1⟩ from by omega]
    rw [List.append_assoc]
    rw [show List.range' (toOrdinal ⟨y, m, 1⟩) (monthLen y m)
        = List.range' ((toOrdinal ⟨y, m, 1⟩ - pyWeekday ⟨y, m, 1⟩) + pyWeekday ⟨y, m, 1⟩)
            (monthLen y m) from by rw [show toOrdinal ⟨y, m, 1⟩ - pyWeekday ⟨y, m, 1⟩
              + pyWeekday ⟨y, m, 1⟩ = toOrdinal ⟨y, m, 1⟩ from by omega]]
    rw [show toOrdinal ⟨y, m, 1⟩ + monthLen y m
        = toOrdinal ⟨y, m, 1⟩ - pyWeekday ⟨y, m, 1⟩ + pyWeekday ⟨y, m, 1⟩ + monthLen y m
        from by omega]
    rw [List.range'_append_1, List.range'_append_1]
    congr 1
    omega

lemma toOrdinal_first_ge (y m : Nat) : 1 ≤ toOrdinal ⟨y, m, 1⟩ := by
  rw [show toOrdinal ⟨y, m, 1⟩ = daysBeforeYear y + daysBeforeMonth y m + 1 from rfl]
  omega

lemma grid_ne_nil (y m : Nat) : get_month_matrix y m ≠ [] := by
  intro h
  have hlen := grid_length y m
  rw [h] at hlen
  have := monthLen_ge y m
  simp at hlen
  omega

lemma grid_head (y m : Nat) (hy : 1 ≤ y) (h1 : 1 ≤ m) (h2 : m ≤ 12) :
    ∃ d0, (get_month_matrix y m).head? = some d0
      ∧ toOrdinal d0 = toOrdinal ⟨y, m, 1⟩ - pyWeekday ⟨y, m, 1⟩
      ∧ pyWeekday d0 = 0
      ∧ toOrdinal d0 ≤ toOrdinal ⟨y, m, 1⟩
      ∧ toOrdinal ⟨y, m, 1⟩ < toOrdinal d0 + 7 := by
  have hg := grid_map_toOrdinal y m hy h1 h2
  have hw : pyWeekday ⟨y, m, 1⟩ = (toOrdinal ⟨y, m, 1⟩ + 6) % 7 := rfl
  have hw7 : pyWeekday ⟨y, m, 1⟩ < 7 := pyWeekday_lt _
  have ho1 := toOrdinal_first_ge y m
  have hml := monthLen_ge y m
  have hmap : ((get_month_matrix y m).map toOrdinal).head?
      = some (toOrdinal ⟨y, m, 1⟩ - pyWeekday ⟨y, m, 1⟩) := by
    rw [hg, List.head?_range', if_neg (by omega)]
  rw [List.head?_map] at hmap
  rcases hh : (get_month_matrix y m).head? with _ | d0
  · rw [hh] at hmap
    simp at hmap
  · rw [hh] at hmap
    simp only [Option.map_some', Option.some.injEq] at hmap
    refine ⟨d0, rfl, hmap, ?_, ?_, ?_⟩ <;>
      [skip; omega; omega]
    have hwd : pyWeekday d0 = (toOrdinal d0 + 6) % 7 := rfl
    omega

lemma grid_last (y m : Nat) (hy : 1 ≤ y) (h1 : 1 ≤ m) (h2 : m ≤ 12) :
    ∃ dN, (get_month_matrix y m).getLast? = some dN
      ∧ pyWeekday dN = 6
      ∧ toOrdinal ⟨y, m, monthLen y m⟩ ≤ toOrdinal dN
      ∧ toOrdinal dN < toOrdinal ⟨y, m, monthLen y m⟩ + 7 := by
  have hg := grid_map_toOrdinal y m hy h1 h2
  have hw : pyWeekday ⟨y, m, 1⟩ = (toOrdinal ⟨y, m, 1⟩ + 6) % 7 := rfl
  have hw7 : pyWeekday ⟨y, m, 1⟩ < 7 := pyWeekday_lt _
  have ho1 := toOrdinal_first_ge y m
  have hml := monthLen_ge y m
  have hcur : toOrdinal ⟨y, m, monthLen y m⟩
      = daysBeforeYear y + daysBeforeMonth y m + monthLen y m := rfl
  have hQ : toOrdinal ⟨y, m, 1⟩ = daysBeforeYear y + daysBeforeMonth y m + 1 := rfl
  have hmap : ((get_month_matrix y m).map toOrdinal).getLast?
      = some (toOrdinal ⟨y, m, 1⟩ - pyWeekday ⟨y, m, 1⟩
          + (pyWeekday ⟨y, m, 1⟩ + monthLen y m
            + (7 - (pyWeekday ⟨y, m, 1⟩ + monthLen y m) % 7) % 7) - 1) := by
    rw [hg, List.getLast?_range', if_neg (by omega)]
  rw [List.getLast?_map] at hmap
  rcases hh : (get_month_matrix y m).getLast? with _ | dN
  · rw [hh] at hmap
    simp at hmap
  · rw [hh] at hmap
    simp only [Option.map_some', Option.some.injEq] at hmap
    refine ⟨dN, rfl, ?_, by omega, by omega⟩
    have hwd : pyWeekday dN = (toOrdinal dN + 6) % 7 := rfl
    omega

lemma grid_ordinal_at (y m : Nat) (hy : 1 ≤ y) (h1 : 1 ≤ m) (h2 : m ≤ 12)
    (i : Nat) (d : Date) (hd : (get_month_matrix y m)[i]? = some d) :
    toOrdinal d = toOrdinal ⟨y, m, 1⟩ - pyWeekday ⟨y, m, 1⟩ + i := by
  have hg := grid_map_toOrdinal y m hy h1 h2
  have hmap : ((get_month_matrix y m).map toOrdinal)[i]? = some (toOrdinal d) := by
    rw [List.getElem?_map, hd]
    rfl
  rw [hg] at hmap
  rw [List.getElem?_eq_some_iff] at hmap
  obtain ⟨hlt, hval⟩ := hmap
  rw [List.getElem_range'] at hval
  omega

lemma prevmonth_month_ne (y m : Nat) (h1 : 1 ≤ m) : (prevmonth y m).2 ≠ m := by
  unfold prevmonth
  split_ifs with h <;> simp <;> omega

lemma nextmonth_month_ne (y m : Nat) (h2 : m ≤ 12) : (nextmonth y m).2 ≠ m := by
  unfold nextmonth
  split_ifs with h <;> simp <;> omega

lemma grid_count (y m d : Nat) (h1 : 1 ≤ m) (h2 : m ≤ 12)
    (hd1 : 1 ≤ d) (hd2 : d ≤ monthLen y m) :
    (get_month_matrix y m).count ⟨y, m, d⟩ = 1 := by
  rw [get_month_matrix_eq, List.count_append, List.count_append]
  have hinj : Function.Injective (fun dd => (⟨y, m, dd⟩ : Date)) := by
    intro a b hab
    exact congrArg Date.day hab
  have hA : ((List.range' (monthLen (prevmonth y m).1 (prevmonth y m).2 + 1
        - pyWeekday ⟨y, m, 1⟩) (pyWeekday ⟨y, m, 1⟩)).map
      (fun dd => (⟨(prevmonth y m).1, (prevmonth y m).2, dd⟩ : Date))).count
        (⟨y, m, d⟩ : Date) = 0 := by
    rw [List.count_eq_zero]
    intro hmem
    rw [List.mem_map] at hmem
    obtain ⟨a, _, ha⟩ := hmem
    exact prevmonth_month_ne y m h1 (congrArg Date.month ha)
  have hC : ((List.range' 1 ((7 - (pyWeekday ⟨y, m, 1⟩ + monthLen y m) % 7) % 7)).map
      (fun dd => (⟨(nextmonth y m).1, (nextmonth y m).2, dd⟩ : Date))).count
        (⟨y, m, d⟩ : Date) = 0 := by
    rw [List.count_eq_zero]
    intro hmem
    rw [List.mem_map] at hmem
    obtain ⟨a, _, ha⟩ := hmem
    exact nextmonth_month_ne y m h2 (congrArg Date.month ha)
  have hB : ((List.range' 1 (monthLen y m)).map
      (fun dd => (⟨y, m, dd⟩ : Date))).count (⟨y, m, d⟩ : Date)
      = (List.range' 1 (monthLen y m)).count d :=
    List.count_map_of_injective _ _ hinj d
  rw [hA, hC, hB, List.count_eq_one_of_mem (List.nodup_range' 1 (monthLen y m))
    (List.mem_range'_1.mpr ⟨hd1, by omega⟩)]

/-- Claim C3: for every year at least 1 and month 1..12, the month grid has
length a multiple of 7, starts at the Monday on or before the 1st of the
month (a Monday at most 6 days before the 1st), ends at the Sunday on or
after the last day of the month (a Sunday at most 6 days after it), and
contains every date of the month exactly once. -/
theorem month_grid_shape (y m : Nat) (hy : 1 ≤ y) (h1 : 1 ≤ m) (h2 : m ≤ 12) :
    (get_month_matrix y m).length % 7 = 0
    ∧ (∃ d0, (get_month_matrix y m).head? = some d0 ∧ pyWeekday d0 = 0
        ∧ toOrdinal d0 ≤ toOrdinal ⟨y, m, 1⟩
        ∧ toOrdinal ⟨y, m, 1⟩ < toOrdinal d0 + 7)
    ∧ (∃ dN, (get_month_matrix y m).getLast? = some dN ∧ pyWeekday dN = 6
        ∧ toOrdinal ⟨y, m, monthLen y m⟩ ≤ toOrdinal dN
        ∧ toOrdinal dN < toOrdinal ⟨y, m, monthLen y m⟩ + 7)
    ∧ (∀ d, 1 ≤ d → d ≤ monthLen y m
        → (get_month_matrix y m).count ⟨y, m, d⟩ = 1) := by
  refine ⟨?_, ?_, ?_, ?_⟩
  · rw [grid_length]
    omega
  · obtain ⟨d0, hh, _, hmon, hle, hlt⟩ := grid_head y m hy h1 h2
    exact ⟨d0, hh, hmon, hle, hlt⟩
  · exact grid_last y m hy h1 h2
  · intro d hd1 hd2
    exact grid_count y m d h1 h2 hd1 hd2

/-- Witness for `month_grid_shape` at June 2024. -/
theorem month_grid_shape_witness :
    (get_month_matrix 2024 6).length % 7 = 0
    ∧ (∃ d0, (get_month_matrix 2024 6).head? = some d0 ∧ pyWeekday d0 = 0
        ∧ toOrdinal d0 ≤ toOrdinal ⟨2024, 6, 1⟩
        ∧ toOrdinal ⟨2024, 6, 1⟩ < toOrdinal d0 + 7)
    ∧ (∃ dN, (get_month_matrix 2024 6).getLast? = some dN ∧ pyWeekday dN = 6
        ∧ toOrdinal ⟨2024, 6, monthLen 2024 6⟩ ≤ toOrdinal dN
        ∧ toOrdinal dN < toOrdinal ⟨2024, 6, monthLen 2024 6⟩ + 7)
    ∧ (∀ d, 1 ≤ d → d ≤ monthLen 2024 6
        → (get_month_matrix 2024 6).count ⟨2024, 6, d⟩ = 1) :=
  month_grid_shape 2024 6 (by omega) (by omega) (by omega)

/-- Claim C7: the grid for February 2025 runs from Monday 2025-01-27 to
Sunday 2025-03-02 and has 35 entries. -/
theorem month_grid_feb_2025 :
    (get_month_matrix 2025 2).head? = some ⟨2025, 1, 27⟩
    ∧ (get_month_matrix 2025 2).getLast? = some ⟨2025, 3, 2⟩
    ∧ (get_month_matrix 2025 2).length = 35
    ∧ pyWeekday ⟨2025, 1, 27⟩ = 0
    ∧ pyWeekday ⟨2025, 3, 2⟩ = 6 := by
  refine ⟨?_, ?_, ?_, ?_, ?_⟩ <;> decide

/-- Claim C10: for every year at least 1 and month 1..12, the month grid is
non-empty, starts on a Monday, each entry is exactly one day after its
predecessor, and no date repeats. -/
theorem month_grid_consecutive (y m : Nat) (hy : 1 ≤ y) (h1 : 1 ≤ m) (h2 : m ≤ 12) :
    get_month_matrix y m ≠ []
    ∧ (∃ d0, (get_month_matrix y m).head? = some d0 ∧ pyWeekday d0 = 0)
    ∧ (∀ i dprev dnext, (get_month_matrix y m)[i]? = some dprev
        → (get_month_matrix y m)[i + 1]? = some dnext
        → toOrdinal dnext = toOrdinal dprev + 1)
    ∧ (get_month_matrix y m).Nodup := by
  refine ⟨grid_ne_nil y m, ?_, ?_, ?_⟩
  · obtain ⟨d0, hh, _, hmon, _, _⟩ := grid_head y m hy h1 h2
    exact ⟨d0, hh, hmon⟩
  · intro i dprev dnext hprev hnext
    have e1 := grid_ordinal_at y m hy h1 h2 i dprev hprev
    have e2 := grid_ordinal_at y m hy h1 h2 (i + 1) dnext hnext
    omega
  · apply List.Nodup.of_map toOrdinal
    rw [grid_map_toOrdinal y m hy h1 h2]
    exact List.nodup_range' _ _

/-- Witness for `month_grid_consecutive` at June 2024. -/
theorem month_grid_consecutive_witness :
    get_month_matrix 2024 6 ≠ []
    ∧ (∃ d0, (get_month_matrix 2024 6).head? = some d0 ∧ pyWeekday d0 = 0)
    ∧ (∀ i dprev dnext, (get_month_matrix 2024 6)[i]? = some dprev
        → (get_month_matrix 2024 6)[i + 1]? = some dnext
        → toOrdinal dnext = toOrdinal dprev + 1)
    ∧ (get_month_matrix 2024 6).Nodup :=
  month_grid_consecutive 2024 6 (by omega) (by omega) (by omega)

/-- Claim C5: the heatmap classification tags a date as padding exactly when
its month differs from the selected month, otherwise as holiday exactly when
it belongs to the holiday set and as free otherwise; in particular 2025-01-01
against month 1 with holiday set containing it is a holiday, and 2025-01-01
against month 2 is padding for every holiday set. -/
theorem classifyDay_spec :
    (∀ (d : Date) (month : Nat) (hs : List Date),
      (classifyDay d month hs = DayTag.padding ↔ d.month ≠ month)
      ∧ (d.month = month →
          ((classifyDay d month hs = DayTag.holiday ↔ d ∈ hs)
            ∧ (classifyDay d month hs = DayTag.free ↔ d ∉ hs))))
    ∧ classifyDay ⟨2025, 1, 1⟩ 1 [⟨2025, 1, 1⟩] = DayTag.holiday
    ∧ (∀ hs : List Date, classifyDay ⟨2025, 1, 1⟩ 2 hs = DayTag.padding) := by
  refine ⟨?_, by decide, ?_⟩
  · intro d month hs
    constructor
    · unfold classifyDay
      split_ifs with hm hh <;> simp [hm]
    · intro hm
      unfold classifyDay
      rw [if_pos hm]
      split_ifs with hh <;> simp [hh]
  · intro hs
    unfold classifyDay
    rw [if_neg (by decide)]

/-- Witness for `classifyDay_spec`: an in-month day outside the holiday set
is classified as free. -/
theorem classifyDay_spec_witness :
    classifyDay ⟨2025, 3, 5⟩ 3 [] = DayTag.free :=
  ((classifyDay_spec.1 ⟨2025, 3, 5⟩ 3 []).2 rfl).2.mpr (by simp)

/-! Facts about the per-slot zone-conversion loop. -/

lemma convertAll_ok_fst (db : TzDB) (utc : DateTime) :
    ∀ (zs : List String) (l : List (String × DateTime)),
      convertAll db zs utc = Except.ok l → l.map Prod.fst = zs := by
  intro zs
  induction zs with
  | nil =>
    intro l h
    unfold convertAll at h
    injection h with h2
    subst h2
    rfl
  | cons tz rest ih =>
    intro l h
    unfold convertAll at h
    split at h
    · exact absurd h (by simp)
    · split at h
      · exact absurd h (by simp)
      · rename_i f hdb l2 hrec
        injection h with h2
        subst h2
        simp [ih l2 hrec]

lemma convertAll_ok_valid (db : TzDB) (utc : DateTime) :
    ∀ (zs : List String) (l : List (String × DateTime)),
      convertAll db zs utc = Except.ok l → ∀ tz ∈ zs, (db tz).isSome := by
  intro zs
  induction zs with
  | nil =>
    intro l _ tz hmem
    simp at hmem
  | cons tz rest ih =>
    intro l h z hmem
    unfold convertAll at h
    split at h
    · exact absurd h (by simp)
    · split at h
      · exact absurd h (by simp)
      · rename_i xo f hdb xe l2 hrec
        rcases List.mem_cons.mp hmem with rfl | hmem2
        · rw [hdb]
          rfl
        · exact ih l2 hrec z hmem2

lemma convertAll_ok_mem (db : TzDB) (utc : DateTime) :
    ∀ (zs : List String) (l : List (String × DateTime)),
      convertAll db zs utc = Except.ok l →
      ∀ tz f, tz ∈ zs → db tz = some f → (tz, f utc) ∈ l := by
  intro zs
  induction zs with
  | nil =>
    intro l _ tz f hmem
    simp at hmem
  | cons tz rest ih =>
    intro l h z f hmem hdbz
    unfold convertAll at h
    split at h
    · exact absurd h (by simp)
    · split at h
      · exact absurd h (by simp)
      · rename_i xo g hdb xe l2 hrec
        injection h with h2
        subst h2
        rcases List.mem_cons.mp hmem with rfl | hmem2
        · rw [hdb] at hdbz
          injection hdbz with hf
          subst hf
          exact List.mem_cons_self _ _
        · exact List.mem_cons_of_mem _ (ih l2 hrec z f hmem2 hdbz)

lemma convertAll_all_iff (db : TzDB) (utc : DateTime) :
    ∀ (zs : List String) (l : List (String × DateTime)),
      convertAll db zs utc = Except.ok l →
      ((l.all fun p => !(hourOutOfBounds p.2)) = true
        ↔ ∀ tz ∈ zs, ∀ f, db tz = some f
            → 8 ≤ (f utc).hour ∧ (f utc).hour ≤ 18) := by
  intro zs
  induction zs with
  | nil =>
    intro l h
    unfold convertAll at h
    injection h with h2
    subst h2
    simp
  | cons tz rest ih =>
    intro l h
    unfold convertAll at h
    split at h
    · exact absurd h (by simp)
    · split at h
      · exact absurd h (by simp)
      · rename_i xo f hdb xe l2 hrec
        injection h with h2
        subst h2
        rw [List.all_cons, Bool.and_eq_true]
        have hrec2 := ih l2 hrec
        constructor
        · intro hall z hmem g hdbz
          rcases List.mem_cons.mp hmem with rfl | hmem2
          · rw [hdb] at hdbz
            injection hdbz with hf
            subst hf
            have h1 := hall.1
            simp [hourOutOfBounds] at h1
            omega
          · exact hrec2.mp hall.2 z hmem2 g hdbz
        · intro hb
          refine ⟨?_, hrec2.mpr fun z hm g hd => hb z (List.mem_cons_of_mem _ hm) g hd⟩
          have := hb tz (List.mem_cons_self _ _) f hdb
          simp [hourOutOfBounds]
          omega

lemma convertAll_ok_of_valid (db : TzDB) (utc : DateTime) :
    ∀ zs : List String, (∀ tz ∈ zs, (db tz).isSome) →
      ∃ l, convertAll db zs utc = Except.ok l := by
  intro zs
  induction zs with
  | nil =>
    intro _
    exact ⟨[], rfl⟩
  | cons tz rest ih =>
    intro hval
    obtain ⟨f, hf⟩ := Option.isSome_iff_exists.mp (hval tz (List.mem_cons_self _ _))
    obtain ⟨l2, hl2⟩ := ih fun z hz => hval z (List.mem_cons_of_mem _ hz)
    refine ⟨(tz, f utc) :: l2, ?_⟩
    unfold convertAll
    rw [hf, hl2]

lemma convertAll_error_of_invalid (db : TzDB) (utc : DateTime) :
    ∀ zs : List String, (∃ tz ∈ zs, db tz = none) →
      ∃ e, convertAll db zs utc = Except.error e := by
  intro zs
  induction zs with
  | nil =>
    rintro ⟨tz, h, _⟩
    simp at h
  | cons tz rest ih =>
    rintro ⟨z, hz, hznone⟩
    cases hdb : db tz with
    | none =>
      refine ⟨tz, ?_⟩
      unfold convertAll
      rw [hdb]
    | some f =>
      have hzrest : z ∈ rest := by
        rcases List.mem_cons.mp hz with rfl | h
        · rw [hdb] at hznone
          exact absurd hznone (by simp)
        · exact h
      obtain ⟨e, he⟩ := ih ⟨z, hzrest, hznone⟩
      refine ⟨e, ?_⟩
      unfold convertAll
      rw [hdb, he]

/-! Facts about the slot sweep. -/

lemma sweep_cons_error (db : TzDB) (zs : List String) (date : Date)
    (s : Nat × Nat) (rest : List (Nat × Nat)) (e : String)
    (h : convertAll db zs ⟨date, s.1, s.2⟩ = Except.error e) :
    sweep db zs date (s :: rest) = Except.error e := by
  unfold sweep
  rw [h]

lemma sweep_cons_ok_error (db : TzDB) (zs : List String) (date : Date)
    (s : Nat × Nat) (rest : List (Nat × Nat)) (locals : List (String × DateTime))
    (e : String)
    (hconv : convertAll db zs ⟨date, s.1, s.2⟩ = Except.ok locals)
    (hrest : sweep db zs date rest = Except.error e) :
    sweep db zs date (s :: rest) = Except.error e := by
  unfold sweep
  rw [hconv, hrest]

lemma sweep_cons_ok_ok (db : TzDB) (zs : List String) (date : Date)
    (s : Nat × Nat) (rest : List (Nat × Nat)) (locals : List (String × DateTime))
    (cs : List Candidate)
    (hconv : convertAll db zs ⟨date, s.1, s.2⟩ = Except.ok locals)
    (hrest : sweep db zs date rest = Except.ok cs) :
    sweep db zs date (s :: rest)
      = Except.ok (if locals.all (fun p => !(hourOutOfBounds p.2)) then
          ⟨⟨date, s.1, s.2⟩, locals⟩ :: cs
        else cs) := by
  unfold sweep
  rw [hconv, hrest]

lemma except_map_error_iff {α β : Type} (f : α → β) (x : Except String α) (e : String) :
    Except.map f x = Except.error e ↔ x = Except.error e := by
  cases x <;> simp [Except.map]

lemma except_map_ok_iff {α β : Type} (f : α → β) (x : Except String α) (b : β) :
    Except.map f x = Except.ok b ↔ ∃ a, x = Except.ok a ∧ f a = b := by
  cases x <;> simp [Except.map]

lemma sweep_nil_zones (db : TzDB) (date : Date) :
    ∀ slots, sweep db [] date slots
      = Except.ok (slots.map fun s => ⟨⟨date, s.1, s.2⟩, []⟩) := by
  intro slots
  induction slots with
  | nil => rfl
  | cons s rest ih =>
    rw [List.map_cons, sweep_cons_ok_ok db [] date s rest [] _ rfl ih]
    rfl

lemma sweep_ok_of_valid (db : TzDB) (zs : List String) (date : Date)
    (hval : ∀ tz ∈ zs, (db tz).isSome) :
    ∀ slots, ∃ cs, sweep db zs date slots = Except.ok cs := by
  intro slots
  induction slots with
  | nil => exact ⟨[], rfl⟩
  | cons s rest ih =>
    obtain ⟨l, hl⟩ := convertAll_ok_of_valid db ⟨date, s.1, s.2⟩ zs hval
    obtain ⟨cs, hcs⟩ := ih
    exact ⟨_, sweep_cons_ok_ok db zs date s rest l cs hl hcs⟩

lemma sweep_error_of_invalid (db : TzDB) (zs : List String) (date : Date)
    (hinv : ∃ tz ∈ zs, db tz = none) (s : Nat × Nat) (rest : List (Nat × Nat)) :
    ∃ e, sweep db zs date (s :: rest) = Except.error e := by
  obtain ⟨e, he⟩ := convertAll_error_of_invalid db ⟨date, s.1, s.2⟩ zs hinv
  exact ⟨e, sweep_cons_error db zs date s rest e he⟩

lemma sweep_localTimes (db : TzDB) (zs : List String) (date : Date) :
    ∀ (slots : List (Nat × Nat)) (cs : List Candidate),
      sweep db zs date slots = Except.ok cs →
      ∀ c ∈ cs, c.localTimes.map Prod.fst = zs := by
  intro slots
  induction slots with
  | nil =>
    intro cs h c hc
    unfold sweep at h
    injection h with h2
    subst h2
    simp at hc
  | cons s rest ih =>
    intro cs h c hc
    unfold sweep at h
    split at h
    · exact absurd h (by simp)
    · split at h
      · exact absurd h (by simp)
      · rename_i x1 locals hconv x2 cs2 hrec
        injection h with h2
        subst h2
        split at hc
        · rcases List.mem_cons.mp hc with rfl | hc2
          · exact convertAll_ok_fst db _ zs locals hconv
          · exact ih cs2 hrec c hc2
        · exact ih cs2 hrec c hc

lemma sweep_utc_sublist (db : TzDB) (zs : List String) (date : Date) :
    ∀ (slots : List (Nat × Nat)) (cs : List Candidate),
      sweep db zs date slots = Except.ok cs →
      List.Sublist (cs.map fun c => (c.utc.hour, c.utc.minute)) slots := by
  intro slots
  induction slots with
  | nil =>
    intro cs h
    unfold sweep at h
    injection h with h2
    subst h2
    simp
  | cons s rest ih =>
    intro cs h
    unfold sweep at h
    split at h
    · exact absurd h (by simp)
    · split at h
      · exact absurd h (by simp)
      · rename_i x1 locals hconv x2 cs2 hrec
        injection h with h2
        subst h2
        split
        · rw [List.map_cons]
          exact List.Sublist.cons₂ _ (ih cs2 hrec)
        · exact List.Sublist.cons _ (ih cs2 hrec)

lemma sweep_mem_iff (db : TzDB) (zs : List String) (date : Date) :
    ∀ (slots : List (Nat × Nat)) (cs : List Candidate),
      sweep db zs date slots = Except.ok cs →
      ∀ hh mm : Nat,
        ((∃ c ∈ cs, c.utc = ⟨date, hh, mm⟩)
          ↔ ((hh, mm) ∈ slots
              ∧ ∀ tz ∈ zs, ∀ f, db tz = some f
                → 8 ≤ (f ⟨date, hh, mm⟩).hour ∧ (f ⟨date, hh, mm⟩).hour ≤ 18)) := by
  intro slots
  induction slots with
  | nil =>
    intro cs h hh mm
    unfold sweep at h
    injection h with h2
    subst h2
    simp
  | cons s rest ih =>
    intro cs h hh mm
    obtain ⟨sh, sm⟩ := s
    unfold sweep at h
    split at h
    · exact absurd h (by simp)
    · split at h
      · exact absurd h (by simp)
      · rename_i x1 locals hconv x2 cs2 hrec
        injection h with h2
        subst h2
        have hiff := convertAll_all_iff db ⟨date, sh, sm⟩ zs locals hconv
        constructor
        · intro hex
          rcases hex with ⟨c, hc, hcu⟩
          split at hc
          · rename_i hflag
            rcases List.mem_cons.mp hc with rfl | hc2
            · have hcu2 : sh = hh ∧ sm = mm := by
                injection hcu with hd h1 h2
                exact ⟨h1, h2⟩
              obtain ⟨rfl, rfl⟩ := hcu2
              exact ⟨List.mem_cons_self _ _, hiff.mp hflag⟩
            · have := (ih cs2 hrec hh mm).mp ⟨c, hc2, hcu⟩
              exact ⟨List.mem_cons_of_mem _ this.1, this.2⟩
          · have := (ih cs2 hrec hh mm).mp ⟨c, hc, hcu⟩
            exact ⟨List.mem_cons_of_mem _ this.1, this.2⟩
        · rintro ⟨hmem, hbounds⟩
          rcases List.mem_cons.mp hmem with heq | hmem2
          · have hsh : sh = hh ∧ sm = mm := by
              injection heq.symm with a b
              exact ⟨a, b⟩
            obtain ⟨rfl, rfl⟩ := hsh
            have hflag : (locals.all fun p => !(hourOutOfBounds p.2)) = true :=
              hiff.mpr hbounds
            rw [if_pos hflag]
            exact ⟨_, List.mem_cons_self _ _, rfl⟩
          · obtain ⟨c, hc2, hcu⟩ := (ih cs2 hrec hh mm).mpr ⟨hmem2, hbounds⟩
            split
            · exact ⟨c, List.mem_cons_of_mem _ hc2, hcu⟩
            · exact ⟨c, hc2, hcu⟩

lemma mem_halfHourSlots (hh mm : Nat) :
    (hh, mm) ∈ halfHourSlots ↔ hh < 24 ∧ (mm = 0 ∨ mm = 30) := by
  simp only [halfHourSlots, List.mem_flatMap, List.mem_range, List.mem_cons,
    List.mem_singleton, List.not_mem_nil]
  constructor
  · rintro ⟨a, ha, h | h | h⟩
    · injection h with h1 h2
      exact ⟨by omega, Or.inl h2⟩
    · injection h with h1 h2
      exact ⟨by omega, Or.inr h2⟩
    · exact absurd h (by simp)
  · rintro ⟨hlt, rfl | rfl⟩
    · exact ⟨hh, hlt, Or.inl rfl⟩
    · exact ⟨hh, hlt, Or.inr (Or.inl rfl)⟩

lemma halfHourSlots_pairwise :
    List.Pairwise (fun a b : Nat × Nat => a.1 < b.1 ∨ (a.1 = b.1 ∧ a.2 < b.2))
      halfHourSlots := by
  decide

/-- Claim C4: whenever `find_suitable_meeting_times` returns normally, the
returned candidates are strictly increasing in UTC time, hour-major then
minute. -/
theorem find_sorted (db : TzDB) (zones : List String) (date : Date)
    (out : List Candidate)
    (hok : find_suitable_meeting_times db zones date = Except.ok out) :
    List.Pairwise (fun a b => a.utc.hour < b.utc.hour
      ∨ (a.utc.hour = b.utc.hour ∧ a.utc.minute < b.utc.minute)) out := by
  have hsub := sweep_utc_sublist db zones date halfHourSlots out hok
  have hpw := List.Pairwise.sublist hsub halfHourSlots_pairwise
  rw [List.pairwise_map] at hpw
  exact hpw

/-- Claim C1: for valid zones, a half-hour UTC slot appears in the output of
`find_suitable_meeting_times` iff every requested zone's converted local time
at that slot has an hour in 8..18 (only the hour is tested). -/
theorem find_slot_accepted_iff (db : TzDB) (zones : List String) (date : Date)
    (hval : ∀ tz ∈ zones, (db tz).isSome) (hne : zones ≠ [])
    (hh mm : Nat) (hhlt : hh < 24) (hmm : mm = 0 ∨ mm = 30)
    (out : List Candidate)
    (hok : find_suitable_meeting_times db zones date = Except.ok out) :
    (∃ c ∈ out, c.utc = ⟨date, hh, mm⟩)
      ↔ ∀ tz ∈ zones, ∀ f, db tz = some f
          → 8 ≤ (f ⟨date, hh, mm⟩).hour ∧ (f ⟨date, hh, mm⟩).hour ≤ 18 := by
  have hmemiff := sweep_mem_iff db zones date halfHourSlots out hok hh mm
  have hmem : (hh, mm) ∈ halfHourSlots := (mem_halfHourSlots hh mm).mpr ⟨hhlt, hmm⟩
  rw [hmemiff]
  exact ⟨fun h => h.2, fun h => ⟨hmem, h⟩⟩

/-- Claim C2 (amended): with an empty zone list every one of the 48 half-hour
slots is vacuously accepted, each carrying an empty per-zone list. -/
theorem find_empty_zones (db : TzDB) (date : Date) :
    find_suitable_meeting_times db [] date
      = Except.ok (halfHourSlots.map fun s => ⟨⟨date, s.1, s.2⟩, []⟩) :=
  sweep_nil_zones db date halfHourSlots

/-- Counterexample to claim C2 as stated: with an empty zone list the result
is not the empty sequence (it has 48 vacuously accepted slots). -/
theorem find_empty_zones_not_nil :
    find_suitable_meeting_times (fun _ => none) [] ⟨2025, 6, 15⟩
      ≠ Except.ok [] := by
  intro h
  rw [find_empty_zones] at h
  injection h with h2
  have h3 := congrArg List.length h2
  rw [List.length_map] at h3
  have h48 : halfHourSlots.length = 48 := rfl
  rw [h48] at h3
  exact absurd h3 (by simp)

/-- Claim C6: for a non-empty zone list, `find_suitable_meeting_times` fails
iff some zone identifier does not resolve in the timezone database, and
returns normally when all identifiers resolve. -/
theorem find_error_iff (db : TzDB) (zones : List String) (date : Date)
    (hne : zones ≠ []) :
    ((∃ e, find_suitable_meeting_times db zones date = Except.error e)
      ↔ ∃ tz ∈ zones, db tz = none)
    ∧ ((∀ tz ∈ zones, (db tz).isSome)
      → ∃ out, find_suitable_meeting_times db zones date = Except.ok out) := by
  constructor
  · constructor
    · rintro ⟨e, he⟩
      by_contra hc
      push_neg at hc
      have hval : ∀ tz ∈ zones, (db tz).isSome := by
        intro tz htz
        rcases hx : db tz with _ | f
        · exact absurd hx (hc tz htz)
        · rfl
      obtain ⟨out, hout⟩ := sweep_ok_of_valid db zones date hval halfHourSlots
      rw [find_suitable_meeting_times, hout] at he
      exact absurd he (by simp)
    · intro hinv
      have hs : halfHourSlots = (0, 0) :: halfHourSlots.tail := rfl
      rw [find_suitable_meeting_times, hs]
      exact sweep_error_of_invalid db zones date hinv (0, 0) halfHourSlots.tail
  · intro hval
    exact sweep_ok_of_valid db zones date hval halfHourSlots

lemma convertAll_append_error (db : TzDB) (utc : DateTime) :
    ∀ (xs ys : List String) (e : String),
      convertAll db xs utc = Except.error e
      → convertAll db (xs ++ ys) utc = Except.error e := by
  intro xs
  induction xs with
  | nil =>
    intro ys e h
    exact absurd h (by simp [convertAll])
  | cons tz rest ih =>
    intro ys e h
    unfold convertAll at h
    rw [List.cons_append]
    unfold convertAll
    split at h
    · exact h
    · split at h
      · rename_i xo f hdb xe e2 hrec
        rw [ih ys e2 hrec]
        exact h
      · exact absurd h (by simp)

lemma convertAll_append_ok (db : TzDB) (utc : DateTime) :
    ∀ (xs ys : List String) (l1 l2 : List (String × DateTime)),
      convertAll db xs utc = Except.ok l1
      → convertAll db ys utc = Except.ok l2
      → convertAll db (xs ++ ys) utc = Except.ok (l1 ++ l2) := by
  intro xs
  induction xs with
  | nil =>
    intro ys l1 l2 h1 h2
    unfold convertAll at h1
    injection h1 with h3
    subst h3
    simpa using h2
  | cons tz rest ih =>
    intro ys l1 l2 h1 h2
    unfold convertAll at h1
    split at h1
    · exact absurd h1 (by simp)
    · split at h1
      · exact absurd h1 (by simp)
      · rename_i xo f hdb xe lr hrec
        injection h1 with h3
        subst h3
        rw [List.cons_append]
        unfold convertAll
        rw [hdb, ih ys lr l2 hrec h2]
        rfl

lemma sweep_append_dup (db : TzDB) (zs : List String) (z : String)
    (hz : z ∈ zs) (date : Date) :
    ∀ slots, Except.map (List.map Candidate.utc) (sweep db (zs ++ [z]) date slots)
      = Except.map (List.map Candidate.utc) (sweep db zs date slots) := by
  intro slots
  induction slots with
  | nil => rfl
  | cons s rest ih =>
    cases hc : convertAll db zs ⟨date, s.1, s.2⟩ with
    | error e =>
      rw [sweep_cons_error db zs date s rest e hc,
        sweep_cons_error db (zs ++ [z]) date s rest e
          (convertAll_append_error db _ zs [z] e hc)]
    | ok l =>
      have hzv : (db z).isSome := convertAll_ok_valid db _ zs l hc z hz
      obtain ⟨f, hf⟩ := Option.isSome_iff_exists.mp hzv
      have hz1 : convertAll db [z] ⟨date, s.1, s.2⟩
          = Except.ok [(z, f ⟨date, s.1, s.2⟩)] := by
        unfold convertAll
        rw [hf]
        rfl
      have hc2 := convertAll_append_ok db _ zs [z] l _ hc hz1
      have hflag : ((l ++ [(z, f ⟨date, s.1, s.2⟩)]).all
            fun p => !(hourOutOfBounds p.2))
          = (l.all fun p => !(hourOutOfBounds p.2)) := by
        rw [List.all_append]
        rcases hl : (l.all fun p => !(hourOutOfBounds p.2))
        · simp
        · have hmem := convertAll_ok_mem db _ zs l hc z f hz hf
          have hch := List.all_eq_true.mp hl _ hmem
          simp [hch]
      cases hr : sweep db zs date rest with
      | error e =>
        have hx : sweep db (zs ++ [z]) date rest = Except.error e := by
          have h2 : Except.map (List.map Candidate.utc)
              (sweep db (zs ++ [z]) date rest) = Except.error e := by
            rw [ih, hr]
            rfl
          exact (except_map_error_iff _ _ _).mp h2
        rw [sweep_cons_ok_error db zs date s rest l e hc hr,
          sweep_cons_ok_error db (zs ++ [z]) date s rest _ e hc2 hx]
      | ok cs =>
        obtain ⟨cs2, hx, hmapeq⟩ : ∃ cs2, sweep db (zs ++ [z]) date rest
              = Except.ok cs2 ∧ cs2.map Candidate.utc = cs.map Candidate.utc := by
          have h2 : Except.map (List.map Candidate.utc)
              (sweep db (zs ++ [z]) date rest) = Except.ok (cs.map Candidate.utc) := by
            rw [ih, hr]
            rfl
          exact (except_map_ok_iff _ _ _).mp h2
        rw [sweep_cons_ok_ok db zs date s rest l cs hc hr,
          sweep_cons_ok_ok db (zs ++ [z]) date s rest _ cs2 hc2 hx, hflag]
        rcases hl : (l.all fun p => !(hourOutOfBounds p.2))
        · simp [Except.map, hmapeq]
        · simp [Except.map, hmapeq]

/-- Claim C8: appending a duplicate of a zone already in the list does not
change which UTC slots are accepted, and every returned candidate's per-zone
local-time list carries exactly the zones of the input, in input order. -/
theorem find_duplicate_zone (db : TzDB) (zones : List String) (date : Date)
    (z : String) (hz : z ∈ zones) :
    Except.map (List.map Candidate.utc)
        (find_suitable_meeting_times db (zones ++ [z]) date)
      = Except.map (List.map Candidate.utc)
        (find_suitable_meeting_times db zones date)
    ∧ (∀ out, find_suitable_meeting_times db zones date = Except.ok out
        → ∀ c ∈ out, c.localTimes.map Prod.fst = zones) := by
  constructor
  · exact sweep_append_dup db zones z hz date halfHourSlots
  · intro out hout c hc
    exact sweep_localTimes db zones date halfHourSlots out hout c hc

lemma convertAll_agree (db1 db2 : TzDB)
    (hsome : ∀ tz, (db1 tz).isSome = (db2 tz).isSome)
    (hhour : ∀ tz f1 f2, db1 tz = some f1 → db2 tz = some f2
      → ∀ u, (f1 u).hour = (f2 u).hour)
    (utc : DateTime) :
    ∀ zs : List String,
      Except.map (List.map fun p => (p.1, p.2.hour)) (convertAll db1 zs utc)
        = Except.map (List.map fun p => (p.1, p.2.hour)) (convertAll db2 zs utc) := by
  intro zs
  induction zs with
  | nil => rfl
  | cons tz rest ih =>
    cases h1 : db1 tz with
    | none =>
      have h2 : db2 tz = none := by
        have hs := hsome tz
        rw [h1] at hs
        rcases hx : db2 tz with _ | g
        · rfl
        · rw [hx] at hs
          simp at hs
      have e1 : convertAll db1 (tz :: rest) utc = Except.error tz := by
        unfold convertAll
        rw [h1]
      have e2 : convertAll db2 (tz :: rest) utc = Except.error tz := by
        unfold convertAll
        rw [h2]
      rw [e1, e2]
    | some f1 =>
      have h2 : ∃ f2, db2 tz = some f2 := by
        have hs := hsome tz
        rw [h1] at hs
        rcases hx : db2 tz with _ | g
        · rw [hx] at hs
          simp at hs
        · exact ⟨g, rfl⟩
      obtain ⟨f2, hf2⟩ := h2
      cases hr1 : convertAll db1 rest utc with
      | error e =>
        have h3 : Except.map (List.map fun p => ((p.1 : String), p.2.hour))
            (convertAll db2 rest utc) = Except.error e := by
          rw [← ih, hr1]
          rfl
        have hr2 := (except_map_error_iff _ _ _).mp h3
        have e1 : convertAll db1 (tz :: rest) utc = Except.error e := by
          unfold convertAll
          rw [h1, hr1]
        have e2 : convertAll db2 (tz :: rest) utc = Except.error e := by
          unfold convertAll
          rw [hf2, hr2]
        rw [e1, e2]
      | ok l1 =>
        have h3 : Except.map (List.map fun p => ((p.1 : String), p.2.hour))
            (convertAll db2 rest utc)
            = Except.ok (l1.map fun p => (p.1, p.2.hour)) := by
          rw [← ih, hr1]
          rfl
        obtain ⟨l2, hr2, hmapl⟩ := (except_map_ok_iff _ _ _).mp h3
        have e1 : convertAll db1 (tz :: rest) utc
            = Except.ok ((tz, f1 utc) :: l1) := by
          unfold convertAll
          rw [h1, hr1]
        have e2 : convertAll db2 (tz :: rest) utc
            = Except.ok ((tz, f2 utc) :: l2) := by
          unfold convertAll
          rw [hf2, hr2]
        rw [e1, e2]
        simp only [Except.map, List.map_cons]
        rw [hmapl, hhour tz f1 f2 h1 hf2 utc]

lemma all_window_eq_of_hour_map_eq :
    ∀ l1 l2 : List (String × DateTime),
      (l1.map fun p => ((p.1 : String), p.2.hour))
        = (l2.map fun p => (p.1, p.2.hour))
      → (l1.all fun p => !(hourOutOfBounds p.2))
        = (l2.all fun p => !(hourOutOfBounds p.2)) := by
  intro l1
  induction l1 with
  | nil =>
    intro l2 h
    have hl2 : l2 = [] := by
      cases l2 with
      | nil => rfl
      | cons p t => simp at h
    subst hl2
    rfl
  | cons p1 t1 ih =>
    intro l2 h
    cases l2 with
    | nil => simp at h
    | cons p2 t2 =>
      simp only [List.map_cons] at h
      injection h with hhead htail
      have hh : p1.2.hour = p2.2.hour := congrArg Prod.snd hhead
      simp only [List.all_cons]
      rw [ih t2 htail]
      have hb : hourOutOfBounds p1.2 = hourOutOfBounds p2.2 := by
        unfold hourOutOfBounds
        rw [hh]
      rw [hb]

lemma sweep_agree (db1 db2 : TzDB)
    (hsome : ∀ tz, (db1 tz).isSome = (db2 tz).isSome)
    (hhour : ∀ tz f1 f2, db1 tz = some f1 → db2 tz = some f2
      → ∀ u, (f1 u).hour = (f2 u).hour)
    (zs : List String) (date : Date) :
    ∀ slots, Except.map (List.map Candidate.utc) (sweep db1 zs date slots)
      = Except.map (List.map Candidate.utc) (sweep db2 zs date slots) := by
  intro slots
  induction slots with
  | nil => rfl
  | cons s rest ih =>
    have hagree := convertAll_agree db1 db2 hsome hhour ⟨date, s.1, s.2⟩ zs
    cases hc1 : convertAll db1 zs ⟨date, s.1, s.2⟩ with
    | error e =>
      have h3 : Except.map (List.map fun p => ((p.1 : String), p.2.hour))
          (convertAll db2 zs ⟨date, s.1, s.2⟩) = Except.error e := by
        rw [← hagree, hc1]
        rfl
      have hc2 := (except_map_error_iff _ _ _).mp h3
      rw [sweep_cons_error db1 zs date s rest e hc1,
        sweep_cons_error db2 zs date s rest e hc2]
    | ok l1 =>
      have h3 : Except.map (List.map fun p => ((p.1 : String), p.2.hour))
          (convertAll db2 zs ⟨date, s.1, s.2⟩)
          = Except.ok (l1.map fun p => (p.1, p.2.hour)) := by
        rw [← hagree, hc1]
        rfl
      obtain ⟨l2, hc2, hmapl⟩ := (except_map_ok_iff _ _ _).mp h3
      have hflag := all_window_eq_of_hour_map_eq l1 l2 hmapl.symm
      cases hr1 : sweep db1 zs date rest with
      | error e =>
        have h4 : Except.map (List.map Candidate.utc)
            (sweep db2 zs date rest) = Except.error e := by
          rw [← ih, hr1]
          rfl
        have hr2 := (except_map_error_iff _ _ _).mp h4
        rw [sweep_cons_ok_error db1 zs date s rest l1 e hc1 hr1,
          sweep_cons_ok_error db2 zs date s rest l2 e hc2 hr2]
      | ok cs1 =>
        have h4 : Except.map (List.map Candidate.utc)
            (sweep db2 zs date rest) = Except.ok (cs1.map Candidate.utc) := by
          rw [← ih, hr1]
          rfl
        obtain ⟨cs2, hr2, hmapc⟩ := (except_map_ok_iff _ _ _).mp h4
        rw [sweep_cons_ok_ok db1 zs date s rest l1 cs1 hc1 hr1,
          sweep_cons_ok_ok db2 zs date s rest l2 cs2 hc2 hr2, hflag]
        rcases hl : (l2.all fun p => !(hourOutOfBounds p.2))
        · simp [Except.map, hmapc]
        · simp [Except.map, hmapc]

/-- Claim C9: the acceptance decision reads only the hour field of each
converted local time: two timezone databases that resolve the same
identifiers and agree on the local hour of every conversion (while possibly
differing in local minute or local calendar date) yield the same accepted
UTC slots. -/
theorem find_reads_only_local_hour (db1 db2 : TzDB)
    (hsome : ∀ tz, (db1 tz).isSome = (db2 tz).isSome)
    (hhour : ∀ tz f1 f2, db1 tz = some f1 → db2 tz = some f2
      → ∀ u, (f1 u).hour = (f2 u).hour)
    (zones : List String) (date : Date) :
    Except.map (List.map Candidate.utc)
        (find_suitable_meeting_times db1 zones date)
      = Except.map (List.map Candidate.utc)
        (find_suitable_meeting_times db2 zones date) :=
  sweep_agree db1 db2 hsome hhour zones date halfHourSlots

/-! Concrete data used by the witnesses below. -/

def demoDate : Date := ⟨2025, 6, 15⟩

/-- A demo timezone database resolving every identifier: the local hour is 9
for UTC hour 9 and 3 otherwise, so exactly the two 9 o'clock UTC slots are
accepted. -/
def demoDb : TzDB := fun _ => some (fun u => ⟨u.date, if u.hour = 9 then 9 else 3, u.minute⟩)

/-- Output of `find_suitable_meeting_times demoDb ["Europe/Paris"] demoDate`. -/
def demoOut : List Candidate :=
  [⟨⟨demoDate, 9, 0⟩, [("Europe/Paris", ⟨demoDate, 9, 0⟩)]⟩,
   ⟨⟨demoDate, 9, 30⟩, [("Europe/Paris", ⟨demoDate, 9, 30⟩)]⟩]

/-- A demo timezone database resolving no identifier at all. -/
def noneDb : TzDB := fun _ => none

/-- A demo timezone database whose zones are all UTC itself. -/
def utcDb : TzDB := fun _ => some (fun u => u)

/-- A demo timezone database whose local wall-clock time falls on the day
after the UTC date while keeping the UTC hour and minute. -/
def nextDayDb : TzDB :=
  fun _ => some (fun u => ⟨⟨u.date.year, u.date.month, u.date.day + 1⟩, u.hour, u.minute⟩)

lemma demoDb_eval : find_suitable_meeting_times demoDb ["Europe/Paris"] demoDate
    = Except.ok demoOut := by
  rfl

/-- Witness for `find_slot_accepted_iff` at the 09:00 UTC slot of the demo
database. -/
theorem find_slot_accepted_iff_witness :
    (∃ c ∈ demoOut, c.utc = (⟨demoDate, 9, 0⟩ : DateTime))
      ↔ ∀ tz ∈ ["Europe/Paris"], ∀ f, demoDb tz = some f
          → 8 ≤ (f ⟨demoDate, 9, 0⟩).hour ∧ (f ⟨demoDate, 9, 0⟩).hour ≤ 18 :=
  find_slot_accepted_iff demoDb ["Europe/Paris"] demoDate
    (fun _ _ => rfl) (by simp) 9 0 (by omega) (Or.inl rfl) demoOut demoDb_eval

/-- Witness for `find_sorted` on the demo output. -/
theorem find_sorted_witness :
    List.Pairwise (fun a b => a.utc.hour < b.utc.hour
      ∨ (a.utc.hour = b.utc.hour ∧ a.utc.minute < b.utc.minute)) demoOut :=
  find_sorted demoDb ["Europe/Paris"] demoDate demoOut demoDb_eval

/-- Witness for `find_error_iff` on a database that resolves nothing. -/
theorem find_error_iff_witness :
    ((∃ e, find_suitable_meeting_times noneDb ["Nowhere/Land"] demoDate
        = Except.error e)
      ↔ ∃ tz ∈ ["Nowhere/Land"], noneDb tz = none)
    ∧ ((∀ tz ∈ ["Nowhere/Land"], (noneDb tz).isSome)
      → ∃ out, find_suitable_meeting_times noneDb ["Nowhere/Land"] demoDate
          = Except.ok out) :=
  find_error_iff noneDb ["Nowhere/Land"] demoDate (by simp)

/-- Witness for `find_duplicate_zone` on the demo database. -/
theorem find_duplicate_zone_witness :
    Except.map (List.map Candidate.utc)
        (find_suitable_meeting_times demoDb (["Europe/Paris"] ++ ["Europe/Paris"]) demoDate)
      = Except.map (List.map Candidate.utc)
        (find_suitable_meeting_times demoDb ["Europe/Paris"] demoDate)
    ∧ (∀ out, find_suitable_meeting_times demoDb ["Europe/Paris"] demoDate = Except.ok out
        → ∀ c ∈ out, c.localTimes.map Prod.fst = ["Europe/Paris"]) :=
  find_duplicate_zone demoDb ["Europe/Paris"] demoDate "Europe/Paris" (by simp)

/-- Witness for `find_reads_only_local_hour`: a database converting to UTC
itself and one shifting the local date to the next day (same hour) accept the
same UTC slots. -/
theorem find_reads_only_local_hour_witness :
    Except.map (List.map Candidate.utc)
        (find_suitable_meeting_times utcDb ["Etc/UTC"] demoDate)
      = Except.map (List.map Candidate.utc)
        (find_suitable_meeting_times nextDayDb ["Etc/UTC"] demoDate) :=
  find_reads_only_local_hour utcDb nextDayDb (fun _ => rfl)
    (fun tz f1 f2 h1 h2 u => by
      injection h1 with e1
      injection h2 with e2
      subst e1
      subst e2
      rfl) ["Etc/UTC"] demoDate
